import Mathlib

/-!
# Verification of the speech-emotion-recognition training code

Shallow embedding of the code in `docs/notebooks/05_Enhanced_Model.ipynb`
(the custom `CosineAnnealingWarmRestarts` scheduler, `train_enhanced_model`,
`evaluate_model`, `EmotionFeatureExtractor.__call__`) and of the repository's
CI workflow (`Basic Code Validation`), together with proofs of the spec's
claims about them.

Numeric idealization: Python floats are modelled as rationals `ℚ`, and
`float('inf')` as `⊤ : WithTop ℚ`.  The transcendental factor
`np.cos(np.pi * x)` used by the scheduler is abstracted as an arbitrary
function `cospi : ℚ → ℚ` applied to the exact rational `T_cur / T_0`, so
every theorem about the learning-rate formula holds for the true cosine in
particular.
-/

namespace SER

/-- State of the notebook's custom `CosineAnnealingWarmRestarts` scheduler:
the fields its `__init__` stores (`T_0`, `T_mult`, `eta_min`, `T_cur`) and
`last_epoch`, together with the learning rates of the optimizer's parameter
groups (`lrs`, the values of `param_group['lr']`) and the `base_lrs` list
recorded by the `_LRScheduler` base class (the initial lr of each group, so
on any real construction `base_lrs.length = lrs.length`). -/
structure CosineAnnealingWarmRestarts where
  T_0 : ℤ
  T_mult : ℤ
  eta_min : ℚ
  T_cur : ℤ
  last_epoch : ℤ
  base_lrs : List ℚ
  lrs : List ℚ
  deriving DecidableEq

/-- `get_lr`: `eta_min + (base_lr - eta_min) * (1 + np.cos(np.pi * T_cur / T_0)) / 2`
for every `base_lr` in `base_lrs`; `cospi x` stands for `np.cos(np.pi * x)`. -/
def CosineAnnealingWarmRestarts.get_lr (cospi : ℚ → ℚ)
    (s : CosineAnnealingWarmRestarts) : List ℚ :=
  s.base_lrs.map fun base_lr =>
    s.eta_min + (base_lr - s.eta_min) * (1 + cospi ((s.T_cur : ℚ) / (s.T_0 : ℚ))) / 2

/-- `for param_group, lr in zip(self.optimizer.param_groups, self.get_lr()):
param_group['lr'] = lr`: each group in the zipped prefix gets the new lr,
any group beyond the end of the new list keeps its old lr. -/
def writeLrs : List ℚ → List ℚ → List ℚ
  | [], _ => []
  | olds, [] => olds
  | _ :: olds, new :: news => new :: writeLrs olds news

/-- `CosineAnnealingWarmRestarts.step(epoch=None)`: set
`last_epoch = epoch` (`last_epoch + 1` when `epoch is None`); if
`T_cur + 1 == T_0` restart (`T_cur = 0; T_0 = T_0 * T_mult`), else
`T_cur += 1`; then overwrite the groups' lrs with `get_lr()`. -/
def CosineAnnealingWarmRestarts.step (cospi : ℚ → ℚ)
    (s : CosineAnnealingWarmRestarts) (epoch : Option ℤ) :
    CosineAnnealingWarmRestarts :=
  let e := match epoch with
    | none => s.last_epoch + 1
    | some e => e
  let s1 := { s with last_epoch := e }
  let s2 :=
    if s1.T_cur + 1 = s1.T_0 then
      { s1 with T_cur := 0, T_0 := s1.T_0 * s1.T_mult }
    else
      { s1 with T_cur := s1.T_cur + 1 }
  { s2 with lrs := writeLrs s2.lrs (s2.get_lr cospi) }

/-- Scheduler state right after
`__init__(optimizer, T_0, T_mult=1, eta_min=0, last_epoch=-1)`:
`T_cur = last_epoch = -1`; the `_LRScheduler` base class records the groups'
current lrs as `base_lrs`.  (The base class also performs one implicit
`step()` call; the theorems below quantify over every number of `step`
calls, so they cover both ways of counting.) -/
def CosineAnnealingWarmRestarts.init (T_0 T_mult : ℤ) (eta_min : ℚ)
    (lrs0 : List ℚ) : CosineAnnealingWarmRestarts :=
  { T_0 := T_0, T_mult := T_mult, eta_min := eta_min,
    T_cur := -1, last_epoch := -1, base_lrs := lrs0, lrs := lrs0 }

/-- The scheduler state after `n` calls of `step()` (epoch argument `None`). -/
def schedAfter (cospi : ℚ → ℚ) (s0 : CosineAnnealingWarmRestarts) :
    ℕ → CosineAnnealingWarmRestarts
  | 0 => s0
  | n + 1 => (schedAfter cospi s0 n).step cospi none

/-- The scheduler state after `n` `step()` calls on a freshly constructed
scheduler (the way `train_enhanced_model` uses it, one call per epoch). -/
def schedRun (cospi : ℚ → ℚ) (T_0 T_mult : ℤ) (eta_min : ℚ) (lrs0 : List ℚ)
    (n : ℕ) : CosineAnnealingWarmRestarts :=
  schedAfter cospi (CosineAnnealingWarmRestarts.init T_0 T_mult eta_min lrs0) n

/-- The inductive invariant for the scheduler counters. -/
def SchedInv (s : CosineAnnealingWarmRestarts) : Prop :=
  0 ≤ s.T_cur ∧ s.T_cur < s.T_0 ∧ 1 ≤ s.T_mult

/-! ## The epoch loop of `train_enhanced_model`

The loop's per-epoch observables are abstracted as functions of the epoch
index: the training and validation statistics the loop computes from the
data loaders (`trainLossAt`, `trainAccAt`, `valLossAt`, `valAccAt`, the
values of `train_loss / len(train_loader)`, `100.*train_correct/train_total`
etc. at that epoch) and `paramsAt`, the model's parameter values right after
the epoch's last training-batch update (the validation pass does not change
them; that frame property is proved separately below).  Everything the
loop's own control flow does — the four history lists, the early-stopping
counter with `patience = 10`, `best_val_loss` starting at `float('inf')`,
`best_model_state`, and the `break` — is modelled exactly. -/

/-- The per-epoch data `train_enhanced_model` observes, indexed by epoch. -/
structure EpochData (Θ : Type) where
  trainLossAt : ℕ → ℚ
  trainAccAt : ℕ → ℚ
  valLossAt : ℕ → ℚ
  valAccAt : ℕ → ℚ
  paramsAt : ℕ → Θ

/-- `patience = 10` in `train_enhanced_model`. -/
def patience : ℕ := 10

/-- The mutable state of `train_enhanced_model`'s epoch loop.  `params` is
the model's current parameter values; `stopped` records that the `break`
has fired; `best_model_saved` that `best_model_state` is not `None`;
`best_epoch` is ghost state remembering at which epoch
`best_model_state = model.state_dict()` was last executed. -/
structure TrainState (Θ : Type) where
  params : Θ
  best_val_loss : WithTop ℚ
  counter : ℕ
  best_model_saved : Bool
  best_epoch : Option ℕ
  epochsRun : ℕ
  train_losses : List ℚ
  val_losses : List ℚ
  train_accs : List ℚ
  val_accs : List ℚ
  stopped : Bool

/-- Loop state before the first epoch: `best_val_loss = float('inf')`,
`counter = 0`, `best_model_state = None`, empty history lists. -/
def TrainState.start {Θ : Type} (θ0 : Θ) : TrainState Θ :=
  { params := θ0, best_val_loss := ⊤, counter := 0, best_model_saved := false,
    best_epoch := none, epochsRun := 0, train_losses := [], val_losses := [],
    train_accs := [], val_accs := [], stopped := false }

/-- One iteration of `for epoch in range(num_epochs)`.  If the `break` has
already fired the iteration does not happen.  Otherwise: the training phase
leaves the parameters at `paramsAt epoch`; the four per-epoch statistics are
appended to their lists; then the early-stopping update runs — on strict
improvement of `val_loss` over `best_val_loss` the best loss, the saved
state and `counter = 0` are updated, otherwise `counter += 1` and the loop
breaks when `counter >= patience`. -/
def trainEpoch {Θ : Type} (d : EpochData Θ) (s : TrainState Θ) : TrainState Θ :=
  if s.stopped then s else
  let e := s.epochsRun
  let val_loss := d.valLossAt e
  let s1 : TrainState Θ :=
    { s with params := d.paramsAt e,
             epochsRun := e + 1,
             train_losses := s.train_losses ++ [d.trainLossAt e],
             train_accs := s.train_accs ++ [d.trainAccAt e],
             val_losses := s.val_losses ++ [val_loss],
             val_accs := s.val_accs ++ [d.valAccAt e] }
  if (val_loss : WithTop ℚ) < s.best_val_loss then
    { s1 with best_val_loss := (val_loss : WithTop ℚ),
              best_model_saved := true, best_epoch := some e, counter := 0 }
  else
    { s1 with counter := s.counter + 1,
              stopped := decide (patience ≤ s.counter + 1) }

/-- The loop state after the `for epoch in range(numEpochs)` loop. -/
def runTrain {Θ : Type} (d : EpochData Θ) (θ0 : Θ) (numEpochs : ℕ) :
    TrainState Θ :=
  (trainEpoch d)^[numEpochs] (TrainState.start θ0)

/-- The returned history dictionary: it is built with exactly the four keys
`train_loss`, `val_loss`, `train_acc`, `val_acc` (one field per key). -/
structure History where
  train_loss : List ℚ
  val_loss : List ℚ
  train_acc : List ℚ
  val_acc : List ℚ
  deriving DecidableEq

/-- The values held by `best_model_state` at the end of the loop.  The dict
returned by `model.state_dict()` holds the live parameter tensors (PyTorch
returns them without copying), and the optimizer updates those tensors in
place, so whenever the dict was saved its values at the end of the loop are
the model's current parameters. -/
def best_model_state_values {Θ : Type} (s : TrainState Θ) : Option Θ :=
  if s.best_model_saved then some s.params else none

/-- `train_enhanced_model(model, ..., num_epochs)`: run the epoch loop, then
`if best_model_state is not None: model.load_state_dict(best_model_state)`
(which copies the dict's values into the model), and return the model's
parameters together with the history dictionary. -/
def train_enhanced_model {Θ : Type} (d : EpochData Θ) (θ0 : Θ)
    (numEpochs : ℕ) : Θ × History :=
  let s := runTrain d θ0 numEpochs
  (match best_model_state_values s with
    | some p => p
    | none => s.params,
   { train_loss := s.train_losses, val_loss := s.val_losses,
     train_acc := s.train_accs, val_acc := s.val_accs })

/-- Modelled from the spec: the spec's sentence "checkpoint selection"
(and claim C2) read `best_model_state = model.state_dict()` as recording a
value snapshot of the parameters at that epoch; under that reading the
function would return the parameters saved at `best_epoch`.  This definition
follows those words, for comparison with `train_enhanced_model` above. -/
def train_enhanced_model_specRestore {Θ : Type} (d : EpochData Θ) (θ0 : Θ)
    (numEpochs : ℕ) : Θ :=
  let s := runTrain d θ0 numEpochs
  match s.best_epoch with
  | some e => d.paramsAt e
  | none => s.params

/-- Concrete input for the boundary counterexample to C1 as stated:
validation losses `0, 1, 1, 1, ...` (the loss improves only at epoch 0). -/
def dC1 : EpochData Unit :=
  { trainLossAt := fun _ => 0, trainAccAt := fun _ => 0,
    valLossAt := fun e => if e = 0 then 0 else 1, valAccAt := fun _ => 0,
    paramsAt := fun _ => () }

/-- Concrete input exhibiting the checkpoint-restoration bug: two epochs,
validation losses `0` then `1` (epoch 0 is the best epoch), and parameter
trajectory `paramsAt e = e` so the two epochs' parameter states differ. -/
def dC2 : EpochData ℕ :=
  { trainLossAt := fun _ => 0, trainAccAt := fun _ => 0,
    valLossAt := fun e => if e = 0 then 0 else 1, valAccAt := fun _ => 0,
    paramsAt := fun e => e }

/-! ## Frame property of the validation pass and of `evaluate_model` (C5)

Both loops run under `torch.no_grad()` in `model.eval()` mode with no
`backward` call and no `optimizer.step()`: the only model access is the
forward pass `outputs, _ = model(features)`, which reads the parameters.
The loops are embedded batch by batch, threading the model parameters and
the optimizer state explicitly through the fold, so that the theorem that
they come out unchanged is a statement about the loop body as written. -/

/-- State threaded through the validation loop of `train_enhanced_model`:
the model's parameters, the optimizer's internal state, and the
accumulators `val_loss`, `val_correct`, `val_total`. -/
structure ValState (Θ Ω : Type) where
  params : Θ
  optState : Ω
  val_loss : ℚ
  val_correct : ℕ
  val_total : ℕ

/-- The body of `for features, targets in val_loader` in the validation
phase: `outputs, _ = model(features)`, `loss = criterion(outputs, targets)`,
`val_loss += loss.item()`, `val_total += targets.size(0)`,
`val_correct += predicted.eq(targets).sum().item()`.  `forward` is the
model's forward function applied to the current parameters, `criterion` the
loss, `numCorrect` the count of matching predictions, `numTargets` the
batch size `targets.size(0)`. -/
def valBatchBody {Θ Ω F T O : Type} (forward : Θ → F → O)
    (criterion : O → T → ℚ) (numCorrect : O → T → ℕ) (numTargets : T → ℕ)
    (s : ValState Θ Ω) (batch : F × T) : ValState Θ Ω :=
  let outputs := forward s.params batch.1
  let loss := criterion outputs batch.2
  { s with val_loss := s.val_loss + loss,
           val_total := s.val_total + numTargets batch.2,
           val_correct := s.val_correct + numCorrect outputs batch.2 }

/-- The whole validation pass of one epoch. -/
def valPhase {Θ Ω F T O : Type} (forward : Θ → F → O)
    (criterion : O → T → ℚ) (numCorrect : O → T → ℕ) (numTargets : T → ℕ)
    (s : ValState Θ Ω) (batches : List (F × T)) : ValState Θ Ω :=
  batches.foldl (valBatchBody forward criterion numCorrect numTargets) s

/-- State threaded through the loop of `evaluate_model`: parameters,
optimizer state, and the accumulators `test_correct`, `test_total`,
`all_preds`, `all_targets`. -/
structure EvalState (Θ Ω P : Type) where
  params : Θ
  optState : Ω
  test_correct : ℕ
  test_total : ℕ
  all_preds : List P
  all_targets : List P

/-- The body of `for features, targets in test_loader` in `evaluate_model`:
forward pass, prediction counting, and `all_preds.extend(...)`,
`all_targets.extend(...)`. -/
def evalBatchBody {Θ Ω F T O P : Type} (forward : Θ → F → O)
    (predsOf : O → List P) (targetsOf : T → List P)
    (numCorrect : O → T → ℕ) (numTargets : T → ℕ)
    (s : EvalState Θ Ω P) (batch : F × T) : EvalState Θ Ω P :=
  let outputs := forward s.params batch.1
  { s with test_total := s.test_total + numTargets batch.2,
           test_correct := s.test_correct + numCorrect outputs batch.2,
           all_preds := s.all_preds ++ predsOf outputs,
           all_targets := s.all_targets ++ targetsOf batch.2 }

/-- The whole batch loop of `evaluate_model`. -/
def evalLoop {Θ Ω F T O P : Type} (forward : Θ → F → O)
    (predsOf : O → List P) (targetsOf : T → List P)
    (numCorrect : O → T → ℕ) (numTargets : T → ℕ)
    (s : EvalState Θ Ω P) (batches : List (F × T)) : EvalState Θ Ω P :=
  batches.foldl (evalBatchBody forward predsOf targetsOf numCorrect numTargets) s

/-! ## The per-epoch divisions (C9) -/

/-- What one loader batch contributes to a phase's statistics: `loss` is
`loss.item()` for the batch, `size` is `targets.size(0)`, `correct` is
`predicted.eq(targets).sum().item()`. -/
structure BatchStats where
  loss : ℚ
  size : ℕ
  correct : ℕ
  deriving DecidableEq

/-- The end-of-phase statistics of the training and validation phases:
`loss = loss_sum / len(loader)` followed by `accuracy = 100. * correct / total`.
In Python each division raises `ZeroDivisionError` when its divisor is 0
(modelled as `none`); the division by `len(loader)` executes first. -/
def phaseAverages (loader : List BatchStats) : Option (ℚ × ℚ) :=
  let loss_sum : ℚ := (loader.map fun b => b.loss).sum
  let total : ℕ := (loader.map fun b => b.size).sum
  let correct : ℕ := (loader.map fun b => b.correct).sum
  if loader.length = 0 then none
  else if total = 0 then none
  else some (loss_sum / (loader.length : ℚ), 100 * (correct : ℚ) / (total : ℚ))

/-- The four divisions `train_enhanced_model` performs each epoch, in
source order: `train_loss / len(train_loader)` and
`100. * train_correct / train_total`, then `val_loss / len(val_loader)` and
`100. * val_correct / val_total`. -/
def epochStatistics (train_loader val_loader : List BatchStats) :
    Option ((ℚ × ℚ) × (ℚ × ℚ)) :=
  match phaseAverages train_loader with
  | none => none
  | some t =>
    match phaseAverages val_loader with
    | none => none
    | some v => some (t, v)

/-- The one division of `evaluate_model`:
`test_accuracy = 100. * test_correct / test_total`. -/
def evaluateModelAccuracy (test_loader : List BatchStats) : Option ℚ :=
  let total : ℕ := (test_loader.map fun b => b.size).sum
  let correct : ℕ := (test_loader.map fun b => b.correct).sum
  if total = 0 then none
  else some (100 * (correct : ℚ) / (total : ℚ))

/-! ## `EmotionFeatureExtractor.__call__` (C6)

A tensor is abstracted by its number of dimensions, its dtype and an opaque
payload standing for its values; the two torchaudio transforms
(`MelSpectrogram`, `AmplitudeToDB`) are library calls, abstracted as
arbitrary functions so the theorem holds whatever they compute. -/

/-- The dtypes the claim distinguishes. -/
inductive DType where
  | float32 : DType
  | float64 : DType
  | int64 : DType
  deriving DecidableEq

/-- Abstraction of a torch tensor: dimension count, dtype, opaque payload. -/
structure Tensor where
  dim : ℕ
  dtype : DType
  payload : ℕ
  deriving DecidableEq

/-- The argument to `__call__`: either already a `torch.Tensor`, or a
non-tensor array-like (e.g. the numpy array `librosa.load` returns), with
its own dimension count, dtype and values. -/
inductive Waveform where
  | tensor (t : Tensor)
  | ndarray (dim : ℕ) (dtype : DType) (payload : ℕ)
  deriving DecidableEq

/-- `waveform.unsqueeze(0)`: one more leading dimension, same data. -/
def unsqueeze0 (t : Tensor) : Tensor :=
  { t with dim := t.dim + 1 }

/-- `EmotionFeatureExtractor.__call__(waveform)`: a non-tensor input is
converted with `torch.tensor(waveform, dtype=torch.float32)` (same shape
and values, dtype `float32`); then `unsqueeze(0)` exactly when the tensor
is 1-dimensional; then the mel-spectrogram transform followed by the
amplitude-to-dB transform. -/
def EmotionFeatureExtractor.call (mel_transform amplitude_to_db : Tensor → Tensor)
    (w : Waveform) : Tensor :=
  let wt : Tensor := match w with
    | .tensor t => t
    | .ndarray d _ p => { dim := d, dtype := DType.float32, payload := p }
  let wt2 : Tensor := if wt.dim = 1 then unsqueeze0 wt else wt
  amplitude_to_db (mel_transform wt2)

/-! ## The CI workflow's "Verify project structure" step (C7)

The step is a bash script of `echo`s and of `if [ -d ... ]` and
`if [ -f ... ]` checks whose branches are single `echo`s.  GitHub Actions runs `run:` scripts with
`bash -e`: a command exiting non-zero aborts the step with that status,
otherwise the step's status is the last command's.  `echo` always exits 0.
The job `validate` runs its steps in order and fails exactly when a step
fails; the `py_compile` syntax-check step's exit status is a parameter. -/

/-- A command of the step's script: an `echo`, or an
`if [ <file test> ]; then echo ...; else echo ...; fi` whose condition is
the named path's existence. -/
inductive ShCmd where
  | echo (msg : String)
  | ifFileElse (cond : Bool) (thenMsg elseMsg : String)
  deriving DecidableEq

/-- Exit status and output of one command: `echo` prints and exits 0; the
`if` runs the chosen branch's `echo`, so it also exits 0. -/
def runCmd : ShCmd → ℕ × List String
  | .echo m => (0, [m])
  | .ifFileElse c t e => (0, [if c then t else e])

/-- Run a script under `bash -e`: stop with the first non-zero exit
status, otherwise the script's status is the last command's (0 for an
empty script). -/
def runScript : List ShCmd → ℕ × List String
  | [] => (0, [])
  | c :: cs =>
    let r := runCmd c
    if r.1 = 0 then
      let rest := runScript cs
      (rest.1, r.2 ++ rest.2)
    else r

/-- The `Verify project structure` step's script, as a function of whether
the `src` directory and `requirements.txt` exist. -/
def verify_project_structure (srcExists reqExists : Bool) : List ShCmd :=
  [ .echo "Verifying project structure...",
    .ifFileElse srcExists "✓ src directory found" "⚠️ src directory not found",
    .ifFileElse reqExists "✓ requirements.txt found" "⚠️ requirements.txt not found" ]

/-- The `validate` job after checkout and Python setup: the
`Check Python syntax` step (exit status `syntaxExit`, whatever the `find`
over `py_compile` returns), then `Verify project structure`, then the
`Success` echo step.  The job succeeds exactly when every step exits 0. -/
def basicCodeValidationJob (syntaxExit : ℕ) (srcExists reqExists : Bool) : Bool :=
  decide (syntaxExit = 0)
    && decide ((runScript (verify_project_structure srcExists reqExists)).1 = 0)
    && decide ((runScript [ShCmd.echo "✅ Basic validation completed successfully"]).1 = 0)

/-! ## Theorems -/

theorem writeLrs_of_length_eq :
    ∀ {olds news : List ℚ}, olds.length = news.length →
      writeLrs olds news = news
  | [], [], _ => rfl
  | [], _ :: _, h => absurd h (by simp)
  | _ :: _, [], h => absurd h (by simp)
  | _ :: olds, _ :: news, h => by
    simpa [writeLrs] using @writeLrs_of_length_eq olds news (by simpa using h)

/-- **C3.** A `step` call with `epoch = None` increments `last_epoch` by 1;
exactly when `T_cur + 1 == T_0` it restarts (`T_cur` becomes 0 and `T_0` is
multiplied by `T_mult`), otherwise `T_cur` increments by 1; and after these
counter updates every parameter group's lr is overwritten with
`eta_min + (base_lr - eta_min) * (1 + cos(pi * T_cur / T_0)) / 2`
(with the updated `T_cur`, `T_0`). -/
theorem cawr_step_none_spec (cospi : ℚ → ℚ) (s : CosineAnnealingWarmRestarts)
    (hlen : s.lrs.length = s.base_lrs.length) :
    (s.step cospi none).last_epoch = s.last_epoch + 1
    ∧ (s.T_cur + 1 = s.T_0 →
        (s.step cospi none).T_cur = 0
        ∧ (s.step cospi none).T_0 = s.T_0 * s.T_mult)
    ∧ (s.T_cur + 1 ≠ s.T_0 →
        (s.step cospi none).T_cur = s.T_cur + 1
        ∧ (s.step cospi none).T_0 = s.T_0)
    ∧ (s.step cospi none).base_lrs = s.base_lrs
    ∧ (s.step cospi none).eta_min = s.eta_min
    ∧ (s.step cospi none).lrs = s.base_lrs.map (fun base_lr =>
        s.eta_min + (base_lr - s.eta_min) *
          (1 + cospi (((s.step cospi none).T_cur : ℚ) /
                      ((s.step cospi none).T_0 : ℚ))) / 2) := by
  by_cases h : s.T_cur + 1 = s.T_0 <;>
    simp [CosineAnnealingWarmRestarts.step, CosineAnnealingWarmRestarts.get_lr, h] <;>
    exact writeLrs_of_length_eq (by simpa using hlen)

theorem cawr_step_none_spec_witness :
    ((CosineAnnealingWarmRestarts.init 10 2 0 [1/1000]).step (fun _ => 0)
        none).last_epoch = 0 := by
  have h := cawr_step_none_spec (fun _ => 0)
    (CosineAnnealingWarmRestarts.init 10 2 0 [1/1000]) rfl
  simpa [CosineAnnealingWarmRestarts.init] using h.1

theorem SchedInv.preserved (cospi : ℚ → ℚ) {s : CosineAnnealingWarmRestarts}
    (h : SchedInv s) : SchedInv (s.step cospi none) := by
  obtain ⟨h0, h1, h2⟩ := h
  by_cases hr : s.T_cur + 1 = s.T_0 <;>
    simp only [CosineAnnealingWarmRestarts.step, SchedInv, hr, if_true, if_false,
      reduceIte] <;>
    refine ⟨by omega, ?_, h2⟩
  · exact lt_of_lt_of_le (by omega) (le_mul_of_one_le_right (by omega) h2)
  · omega

theorem SchedInv.T_0_le_step (cospi : ℚ → ℚ) {s : CosineAnnealingWarmRestarts}
    (h : SchedInv s) : s.T_0 ≤ (s.step cospi none).T_0 := by
  obtain ⟨h0, h1, h2⟩ := h
  by_cases hr : s.T_cur + 1 = s.T_0 <;>
    simp only [CosineAnnealingWarmRestarts.step, hr, if_true, if_false, reduceIte]
  · exact le_mul_of_one_le_right (by omega) h2
  · exact le_refl _

theorem schedRun_inv (cospi : ℚ → ℚ) (T_0 T_mult : ℤ) (eta_min : ℚ)
    (lrs0 : List ℚ) (h0 : 1 ≤ T_0) (hm : 1 ≤ T_mult) :
    ∀ n : ℕ, SchedInv (schedRun cospi T_0 T_mult eta_min lrs0 (n + 1))
  | 0 => by
    have : ¬ ((-1 : ℤ) + 1 = T_0) := by omega
    simp only [schedRun, schedAfter, CosineAnnealingWarmRestarts.init,
      CosineAnnealingWarmRestarts.step, SchedInv, this, if_false, reduceIte]
    exact ⟨by omega, by omega, hm⟩
  | n + 1 =>
    SchedInv.preserved cospi (schedRun_inv cospi T_0 T_mult eta_min lrs0 h0 hm n)

/-- **C4.** For a scheduler constructed with `T_0 >= 1`, `T_mult >= 1` and
the default `last_epoch = -1`, after every `step()` call `0 <= T_cur < T_0`
holds, the cosine argument `T_cur / T_0` lies in `[0, 1)`, and `T_0` is
non-decreasing across the whole sequence of steps. -/
theorem cawr_counter_invariant (cospi : ℚ → ℚ) (T_0 T_mult : ℤ) (eta_min : ℚ)
    (lrs0 : List ℚ) (h0 : 1 ≤ T_0) (hm : 1 ≤ T_mult) :
    (∀ n : ℕ,
      0 ≤ (schedRun cospi T_0 T_mult eta_min lrs0 (n + 1)).T_cur
      ∧ (schedRun cospi T_0 T_mult eta_min lrs0 (n + 1)).T_cur
          < (schedRun cospi T_0 T_mult eta_min lrs0 (n + 1)).T_0
      ∧ 0 ≤ ((schedRun cospi T_0 T_mult eta_min lrs0 (n + 1)).T_cur : ℚ)
              / ((schedRun cospi T_0 T_mult eta_min lrs0 (n + 1)).T_0 : ℚ)
      ∧ ((schedRun cospi T_0 T_mult eta_min lrs0 (n + 1)).T_cur : ℚ)
              / ((schedRun cospi T_0 T_mult eta_min lrs0 (n + 1)).T_0 : ℚ) < 1)
    ∧ (∀ m n : ℕ, m ≤ n →
        (schedRun cospi T_0 T_mult eta_min lrs0 m).T_0
          ≤ (schedRun cospi T_0 T_mult eta_min lrs0 n).T_0) := by
  constructor
  · intro n
    obtain ⟨ha, hb, _⟩ := schedRun_inv cospi T_0 T_mult eta_min lrs0 h0 hm n
    have hposZ : (0 : ℤ) < (schedRun cospi T_0 T_mult eta_min lrs0 (n + 1)).T_0 := by
      omega
    have hpos : (0 : ℚ) < ((schedRun cospi T_0 T_mult eta_min lrs0 (n + 1)).T_0 : ℚ) := by
      exact_mod_cast hposZ
    have haQ : (0 : ℚ) ≤ ((schedRun cospi T_0 T_mult eta_min lrs0 (n + 1)).T_cur : ℚ) := by
      exact_mod_cast ha
    have hbQ : ((schedRun cospi T_0 T_mult eta_min lrs0 (n + 1)).T_cur : ℚ)
        < ((schedRun cospi T_0 T_mult eta_min lrs0 (n + 1)).T_0 : ℚ) := by
      exact_mod_cast hb
    exact ⟨ha, hb, div_nonneg haQ (le_of_lt hpos), (div_lt_one hpos).mpr hbQ⟩
  · intro m n hmn
    induction n with
    | zero => simp [Nat.le_zero.mp hmn]
    | succ k ih =>
      rcases Nat.lt_or_ge m (k + 1) with hlt | hge
      · refine le_trans (ih (by omega)) ?_
        cases k with
        | zero =>
          have h1 : ¬ ((-1 : ℤ) + 1 = T_0) := by omega
          simp only [schedRun, schedAfter, CosineAnnealingWarmRestarts.init,
            CosineAnnealingWarmRestarts.step, h1, if_false, reduceIte]
          exact le_refl _
        | succ j =>
          exact SchedInv.T_0_le_step cospi
            (schedRun_inv cospi T_0 T_mult eta_min lrs0 h0 hm j)
      · have : m = k + 1 := by omega
        simp [this]

theorem cawr_counter_invariant_witness :
    0 ≤ (schedRun (fun _ => 0) 10 2 0 [1/1000] 3).T_cur :=
  ((cawr_counter_invariant (fun _ => 0) 10 2 0 [1/1000]
      (by decide) (by decide)).1 2).1

/-! ### Control-flow lemmas about the epoch loop -/

theorem runTrain_zero {Θ : Type} (d : EpochData Θ) (θ0 : Θ) :
    runTrain d θ0 0 = TrainState.start θ0 := rfl

theorem runTrain_succ {Θ : Type} (d : EpochData Θ) (θ0 : Θ) (n : ℕ) :
    runTrain d θ0 (n + 1) = trainEpoch d (runTrain d θ0 n) :=
  Function.iterate_succ_apply' (trainEpoch d) n (TrainState.start θ0)

theorem trainEpoch_of_stopped {Θ : Type} (d : EpochData Θ) {s : TrainState Θ}
    (h : s.stopped = true) : trainEpoch d s = s := by
  simp [trainEpoch, h]

theorem trainEpoch_epochsRun {Θ : Type} (d : EpochData Θ) {s : TrainState Θ}
    (h : s.stopped = false) :
    (trainEpoch d s).epochsRun = s.epochsRun + 1 := by
  by_cases himp : (d.valLossAt s.epochsRun : WithTop ℚ) < s.best_val_loss <;>
    simp [trainEpoch, h, himp]

theorem runTrain_epochsRun_of_not_stopped {Θ : Type} (d : EpochData Θ) (θ0 : Θ) :
    ∀ n : ℕ, (runTrain d θ0 n).stopped = false →
      (runTrain d θ0 n).epochsRun = n
  | 0, _ => rfl
  | n + 1, h => by
    rw [runTrain_succ] at h ⊢
    cases hs : (runTrain d θ0 n).stopped with
    | true => rw [trainEpoch_of_stopped d hs] at h; exact absurd h (by simp [hs])
    | false =>
      rw [trainEpoch_epochsRun d hs,
        runTrain_epochsRun_of_not_stopped d θ0 n hs]

theorem runTrain_epochsRun_le {Θ : Type} (d : EpochData Θ) (θ0 : Θ) :
    ∀ n : ℕ, (runTrain d θ0 n).epochsRun ≤ n
  | 0 => le_refl _
  | n + 1 => by
    rw [runTrain_succ]
    cases hs : (runTrain d θ0 n).stopped with
    | true =>
      rw [trainEpoch_of_stopped d hs]
      exact le_trans (runTrain_epochsRun_le d θ0 n) (by omega)
    | false =>
      rw [trainEpoch_epochsRun d hs]
      exact Nat.succ_le_succ (runTrain_epochsRun_le d θ0 n)

theorem runTrain_frozen {Θ : Type} (d : EpochData Θ) (θ0 : Θ) (m : ℕ)
    (hm : (runTrain d θ0 m).stopped = true) :
    ∀ n : ℕ, m ≤ n → runTrain d θ0 n = runTrain d θ0 m
  | 0, h0 => by rw [Nat.le_zero.mp h0] at hm ⊢
  | n + 1, h0 => by
    rcases Nat.lt_or_ge m (n + 1) with hlt | hge
    · have ih := runTrain_frozen d θ0 m hm n (by omega)
      rw [runTrain_succ, ih, trainEpoch_of_stopped d hm]
    · have : m = n + 1 := by omega
      rw [this]

theorem runTrain_counter_lt_of_not_stopped {Θ : Type} (d : EpochData Θ) (θ0 : Θ) :
    ∀ n : ℕ, (runTrain d θ0 n).stopped = false →
      (runTrain d θ0 n).counter < patience
  | 0, _ => by simp [runTrain_zero, TrainState.start, patience]
  | n + 1, h => by
    rw [runTrain_succ] at h ⊢
    cases hs : (runTrain d θ0 n).stopped with
    | true => rw [trainEpoch_of_stopped d hs] at h; exact absurd h (by simp [hs])
    | false =>
      by_cases himp : (d.valLossAt (runTrain d θ0 n).epochsRun : WithTop ℚ)
          < (runTrain d θ0 n).best_val_loss
      · simp [trainEpoch, hs, himp, patience]
      · simp only [trainEpoch, hs, himp, Bool.false_eq_true, if_false, reduceIte] at h ⊢
        simpa using of_decide_eq_false h

theorem runTrain_patience_le_of_stopped {Θ : Type} (d : EpochData Θ) (θ0 : Θ) :
    ∀ n : ℕ, (runTrain d θ0 n).stopped = true →
      patience ≤ (runTrain d θ0 n).counter
  | 0, h => absurd h (by simp [runTrain_zero, TrainState.start])
  | n + 1, h => by
    rw [runTrain_succ] at h ⊢
    cases hs : (runTrain d θ0 n).stopped with
    | true =>
      rw [trainEpoch_of_stopped d hs] at h ⊢
      exact runTrain_patience_le_of_stopped d θ0 n h
    | false =>
      by_cases himp : (d.valLossAt (runTrain d θ0 n).epochsRun : WithTop ℚ)
          < (runTrain d θ0 n).best_val_loss
      · rw [show trainEpoch d (runTrain d θ0 n) = _ from rfl] at h
        simp [trainEpoch, hs, himp] at h
      · simp only [trainEpoch, hs, himp, Bool.false_eq_true, if_false, reduceIte] at h ⊢
        exact of_decide_eq_true h

theorem runTrain_stopped_iff {Θ : Type} (d : EpochData Θ) (θ0 : Θ) (n : ℕ) :
    (runTrain d θ0 n).stopped = true ↔ patience ≤ (runTrain d θ0 n).counter := by
  constructor
  · exact runTrain_patience_le_of_stopped d θ0 n
  · intro h
    cases hs : (runTrain d θ0 n).stopped with
    | true => rfl
    | false => exact absurd h (by simpa using runTrain_counter_lt_of_not_stopped d θ0 n hs)

/-- **C1 (amended).** The epoch loop terminates before `num_epochs` epochs
exactly when the early-stopping counter reaches `patience = 10` while at
least one further epoch remains, i.e. at an epoch `b` with
`b + 1 < num_epochs`; the counter resets to 0 on every epoch whose
validation loss is strictly below the best so far, increments by 1
otherwise, and the loop breaks exactly when the counter reaches `patience`.
(When the counter first reaches `patience` at the final epoch the break
fires but all `num_epochs` epochs have already run, so the run is not
shorter; otherwise all `num_epochs` epochs run.) -/
theorem train_early_stopping {Θ : Type} (d : EpochData Θ) (θ0 : Θ)
    (numEpochs : ℕ) :
    ((runTrain d θ0 numEpochs).epochsRun < numEpochs ↔
      ∃ b : ℕ, b + 1 < numEpochs ∧ patience ≤ (runTrain d θ0 (b + 1)).counter)
    ∧ (runTrain d θ0 numEpochs).epochsRun ≤ numEpochs
    ∧ ∀ e : ℕ, (runTrain d θ0 e).stopped = false →
        (((d.valLossAt e : WithTop ℚ) < (runTrain d θ0 e).best_val_loss →
            (runTrain d θ0 (e + 1)).counter = 0)
        ∧ (¬ ((d.valLossAt e : WithTop ℚ) < (runTrain d θ0 e).best_val_loss) →
            (runTrain d θ0 (e + 1)).counter = (runTrain d θ0 e).counter + 1)
        ∧ ((runTrain d θ0 (e + 1)).stopped = true ↔
            patience ≤ (runTrain d θ0 (e + 1)).counter)) := by
  refine ⟨?_, runTrain_epochsRun_le d θ0 numEpochs, ?_⟩
  · constructor
    · intro hlt
      have hstop : (runTrain d θ0 numEpochs).stopped = true := by
        cases hs : (runTrain d θ0 numEpochs).stopped with
        | true => rfl
        | false =>
          exact absurd (runTrain_epochsRun_of_not_stopped d θ0 numEpochs hs)
            (by omega)
      have hP : ∃ k : ℕ, (runTrain d θ0 k).stopped = true := ⟨numEpochs, hstop⟩
      have htle : Nat.find hP ≤ numEpochs := Nat.find_min' hP hstop
      have htstop : (runTrain d θ0 (Nat.find hP)).stopped = true := Nat.find_spec hP
      have ht0 : Nat.find hP ≠ 0 := by
        intro h0
        rw [h0] at htstop
        exact absurd htstop (by simp [runTrain_zero, TrainState.start])
      obtain ⟨b, hb⟩ : ∃ b, Nat.find hP = b + 1 := ⟨Nat.find hP - 1, by omega⟩
      have hbfree : (runTrain d θ0 b).stopped = false := by
        have := Nat.find_min hP (m := b) (by omega)
        simpa using this
      rw [hb] at htle htstop
      have hrunt : (runTrain d θ0 (b + 1)).epochsRun = b + 1 := by
        rw [runTrain_succ, trainEpoch_epochsRun d hbfree,
          runTrain_epochsRun_of_not_stopped d θ0 b hbfree]
      have hfreeze := runTrain_frozen d θ0 (b + 1) htstop numEpochs htle
      refine ⟨b, ?_, runTrain_patience_le_of_stopped d θ0 (b + 1) htstop⟩
      rw [hfreeze, hrunt] at hlt
      exact hlt
    · rintro ⟨b, hb, hc⟩
      have hstop : (runTrain d θ0 (b + 1)).stopped = true :=
        (runTrain_stopped_iff d θ0 (b + 1)).mpr hc
      have hfreeze := runTrain_frozen d θ0 (b + 1) hstop numEpochs (by omega)
      rw [hfreeze]
      exact lt_of_le_of_lt (runTrain_epochsRun_le d θ0 (b + 1)) hb
  · intro e he
    have hidx : (runTrain d θ0 e).epochsRun = e :=
      runTrain_epochsRun_of_not_stopped d θ0 e he
    refine ⟨?_, ?_, ?_⟩
    · intro himp
      rw [runTrain_succ, trainEpoch, he]
      simp only [Bool.false_eq_true, if_false, reduceIte, hidx, himp, if_true]
    · intro himp
      rw [runTrain_succ, trainEpoch, he]
      simp only [Bool.false_eq_true, if_false, reduceIte, hidx, himp]
    · exact runTrain_stopped_iff d θ0 (e + 1)

/-- **C1, counterexample to the claim as stated.** With `num_epochs = 11`
and validation losses `0, 1, 1, ..., 1`, the validation loss fails to
strictly improve for `patience = 10` consecutive epochs (epochs 1..10), the
counter reaches 10 and the break fires — yet the loop does not terminate
before `num_epochs` epochs: all 11 epochs run, so the claim's "exactly
when" equivalence is false at this input. -/
theorem train_early_stopping_cex :
    (runTrain dC1 () 11).stopped = true
    ∧ (runTrain dC1 () 11).counter = 10
    ∧ (runTrain dC1 () 11).epochsRun = 11
    ∧ ¬ (((runTrain dC1 () 11).epochsRun < 11) ↔
          patience ≤ (runTrain dC1 () 11).counter) := by
  decide

/-! ### History shape (C8) and the `num_epochs = 0` run (C10) -/

theorem runTrain_history_lengths {Θ : Type} (d : EpochData Θ) (θ0 : Θ) :
    ∀ n : ℕ,
      (runTrain d θ0 n).train_losses.length = (runTrain d θ0 n).epochsRun
      ∧ (runTrain d θ0 n).val_losses.length = (runTrain d θ0 n).epochsRun
      ∧ (runTrain d θ0 n).train_accs.length = (runTrain d θ0 n).epochsRun
      ∧ (runTrain d θ0 n).val_accs.length = (runTrain d θ0 n).epochsRun
  | 0 => by simp [runTrain_zero, TrainState.start]
  | n + 1 => by
    obtain ⟨h1, h2, h3, h4⟩ := runTrain_history_lengths d θ0 n
    rw [runTrain_succ]
    cases hs : (runTrain d θ0 n).stopped with
    | true => rw [trainEpoch_of_stopped d hs]; exact ⟨h1, h2, h3, h4⟩
    | false =>
      by_cases himp : (d.valLossAt (runTrain d θ0 n).epochsRun : WithTop ℚ)
          < (runTrain d θ0 n).best_val_loss <;>
        simp [trainEpoch, hs, himp, h1, h2, h3, h4]

/-- **C8.** The history returned by `train_enhanced_model` has exactly the
four keys `train_loss`, `val_loss`, `train_acc`, `val_acc` (the four fields
of `History`), and the four lists all have the same length, equal to the
number of epochs actually executed, which is at most `num_epochs`: one entry
is appended to each list per executed epoch, including the epoch on which
early stopping breaks. -/
theorem train_history_shape {Θ : Type} (d : EpochData Θ) (θ0 : Θ)
    (numEpochs : ℕ) :
    (train_enhanced_model d θ0 numEpochs).2.train_loss.length
        = (runTrain d θ0 numEpochs).epochsRun
    ∧ (train_enhanced_model d θ0 numEpochs).2.val_loss.length
        = (runTrain d θ0 numEpochs).epochsRun
    ∧ (train_enhanced_model d θ0 numEpochs).2.train_acc.length
        = (runTrain d θ0 numEpochs).epochsRun
    ∧ (train_enhanced_model d θ0 numEpochs).2.val_acc.length
        = (runTrain d θ0 numEpochs).epochsRun
    ∧ (runTrain d θ0 numEpochs).epochsRun ≤ numEpochs := by
  obtain ⟨h1, h2, h3, h4⟩ := runTrain_history_lengths d θ0 numEpochs
  exact ⟨h1, h2, h3, h4, runTrain_epochsRun_le d θ0 numEpochs⟩

/-- **C10.** With `num_epochs = 0` the epoch loop body never runs:
`best_model_state` stays `None`, no `state_dict` is loaded, and the function
returns the model with its parameters exactly as passed in, together with a
history whose four lists are all empty. -/
theorem train_zero_epochs {Θ : Type} (d : EpochData Θ) (θ0 : Θ) :
    train_enhanced_model d θ0 0 =
      (θ0, { train_loss := [], val_loss := [], train_acc := [], val_acc := [] })
    ∧ (runTrain d θ0 0).best_model_saved = false
    ∧ best_model_state_values (runTrain d θ0 0) = none
    ∧ (runTrain d θ0 0).best_epoch = none
    ∧ (runTrain d θ0 0).epochsRun = 0 :=
  ⟨rfl, rfl, rfl, rfl, rfl⟩

/-! ### Checkpoint restoration (C2) -/

theorem train_enhanced_model_fst {Θ : Type} (d : EpochData Θ) (θ0 : Θ)
    (n : ℕ) :
    (train_enhanced_model d θ0 n).1 = (runTrain d θ0 n).params := by
  unfold train_enhanced_model best_model_state_values
  cases h : (runTrain d θ0 n).best_model_saved <;> simp [h]

theorem runTrain_params {Θ : Type} (d : EpochData Θ) (θ0 : Θ) :
    ∀ n : ℕ, (runTrain d θ0 n).epochsRun = 0 → (runTrain d θ0 n).params = θ0
  | 0, _ => rfl
  | n + 1, h => by
    rw [runTrain_succ] at h ⊢
    cases hs : (runTrain d θ0 n).stopped with
    | true =>
      rw [trainEpoch_of_stopped d hs] at h ⊢
      exact runTrain_params d θ0 n h
    | false => rw [trainEpoch_epochsRun d hs] at h; exact absurd h (by omega)

theorem runTrain_params_last {Θ : Type} (d : EpochData Θ) (θ0 : Θ) :
    ∀ n : ℕ, 1 ≤ (runTrain d θ0 n).epochsRun →
      (runTrain d θ0 n).params = d.paramsAt ((runTrain d θ0 n).epochsRun - 1)
  | 0, h => absurd h (by simp [runTrain_zero, TrainState.start])
  | n + 1, h => by
    rw [runTrain_succ] at h ⊢
    cases hs : (runTrain d θ0 n).stopped with
    | true =>
      rw [trainEpoch_of_stopped d hs] at h ⊢
      exact runTrain_params_last d θ0 n h
    | false =>
      have hidx : (runTrain d θ0 n).epochsRun = n :=
        runTrain_epochsRun_of_not_stopped d θ0 n hs
      by_cases himp : (d.valLossAt n : WithTop ℚ)
          < (runTrain d θ0 n).best_val_loss <;>
        simp [trainEpoch, hs, himp, hidx]

/-- After the loop, whatever `best_model_state` holds, the parameters the
function returns are the parameters left by the last executed epoch's
training phase: the `state_dict` saved at the best epoch aliases the live
tensors, so the final `load_state_dict` writes back the current values. -/
theorem train_returns_last_params {Θ : Type} (d : EpochData Θ) (θ0 : Θ)
    (n : ℕ) (h : 1 ≤ (runTrain d θ0 n).epochsRun) :
    (train_enhanced_model d θ0 n).1
      = d.paramsAt ((runTrain d θ0 n).epochsRun - 1) := by
  rw [train_enhanced_model_fst]
  exact runTrain_params_last d θ0 n h

/-- **C2 (code bug).** At the failing input `dC2` with `num_epochs = 2`,
epoch 0 has the minimum validation loss and `best_model_state` was saved at
epoch 0 (`best_epoch = some 0`), yet the returned model carries the
parameters of the last epoch (`paramsAt 1`), not those of the best epoch:
`model.state_dict()` returns the live parameter tensors without copying, so
by the end of training the saved dict holds the final parameters and
`load_state_dict` restores nothing.  The snapshot reading of the same code
(`train_enhanced_model_specRestore`) would return the best epoch's
parameters, establishing the divergence. -/
theorem train_restore_divergence :
    (train_enhanced_model dC2 99 2).1 = dC2.paramsAt 1
    ∧ (runTrain dC2 99 2).best_epoch = some 0
    ∧ dC2.valLossAt 0 < dC2.valLossAt 1
    ∧ train_enhanced_model_specRestore dC2 99 2 = dC2.paramsAt 0
    ∧ (train_enhanced_model dC2 99 2).1 ≠ train_enhanced_model_specRestore dC2 99 2 := by
  decide

theorem valPhase_frame {Θ Ω F T O : Type} (forward : Θ → F → O)
    (criterion : O → T → ℚ) (numCorrect : O → T → ℕ) (numTargets : T → ℕ) :
    ∀ (batches : List (F × T)) (s : ValState Θ Ω),
      (valPhase forward criterion numCorrect numTargets s batches).params = s.params
      ∧ (valPhase forward criterion numCorrect numTargets s batches).optState
          = s.optState
  | [], _ => ⟨rfl, rfl⟩
  | b :: bs, s =>
    valPhase_frame forward criterion numCorrect numTargets bs
      (valBatchBody forward criterion numCorrect numTargets s b)

theorem evalLoop_frame {Θ Ω F T O P : Type} (forward : Θ → F → O)
    (predsOf : O → List P) (targetsOf : T → List P)
    (numCorrect : O → T → ℕ) (numTargets : T → ℕ) :
    ∀ (batches : List (F × T)) (s : EvalState Θ Ω P),
      (evalLoop forward predsOf targetsOf numCorrect numTargets s batches).params
          = s.params
      ∧ (evalLoop forward predsOf targetsOf numCorrect numTargets s batches).optState
          = s.optState
  | [], _ => ⟨rfl, rfl⟩
  | b :: bs, s =>
    evalLoop_frame forward predsOf targetsOf numCorrect numTargets bs
      (evalBatchBody forward predsOf targetsOf numCorrect numTargets s b)

/-- **C5.** The validation pass inside `train_enhanced_model` and the whole
batch loop of `evaluate_model` leave the model parameters and the optimizer
state unchanged — they only read the parameters through the forward pass —
so after each epoch's validation phase the parameters still equal the
parameters left by that epoch's last training-batch update. -/
theorem validation_and_eval_frame {Θ Ω F T O P : Type} (forward : Θ → F → O)
    (criterion : O → T → ℚ) (predsOf : O → List P) (targetsOf : T → List P)
    (numCorrect : O → T → ℕ) (numTargets : T → ℕ)
    (s : ValState Θ Ω) (t : EvalState Θ Ω P) (batches batches' : List (F × T)) :
    (valPhase forward criterion numCorrect numTargets s batches).params = s.params
    ∧ (valPhase forward criterion numCorrect numTargets s batches).optState
        = s.optState
    ∧ (evalLoop forward predsOf targetsOf numCorrect numTargets t batches').params
        = t.params
    ∧ (evalLoop forward predsOf targetsOf numCorrect numTargets t batches').optState
        = t.optState :=
  ⟨(valPhase_frame forward criterion numCorrect numTargets batches s).1,
   (valPhase_frame forward criterion numCorrect numTargets batches s).2,
   (evalLoop_frame forward predsOf targetsOf numCorrect numTargets batches' t).1,
   (evalLoop_frame forward predsOf targetsOf numCorrect numTargets batches' t).2⟩

theorem size_sum_pos {l : List BatchStats} (h : ∃ b ∈ l, 1 ≤ b.size) :
    0 < (l.map fun b => b.size).sum := by
  obtain ⟨b, hb, h1⟩ := h
  have hle : b.size ≤ (l.map fun b => b.size).sum :=
    List.single_le_sum (fun x _ => Nat.zero_le x) _
      (List.mem_map_of_mem (fun b => b.size) hb)
  omega

theorem phaseAverages_isSome {l : List BatchStats} (h : ∃ b ∈ l, 1 ≤ b.size) :
    (phaseAverages l).isSome = true := by
  have hpos := size_sum_pos h
  obtain ⟨b, hb, _⟩ := h
  have hlen : ¬ (l.length = 0) := by
    intro h0
    rw [List.length_eq_zero.mp h0] at hb
    exact absurd hb (List.not_mem_nil b)
  have htot : ¬ ((l.map fun b => b.size).sum = 0) := by omega
  simp [phaseAverages, hlen, htot]

/-- **C9.** `train_enhanced_model` divides by `len(train_loader)`,
`len(val_loader)`, `train_total` and `val_total` each epoch, and
`evaluate_model` divides by `test_total`.  When each loader yields at least
one batch containing at least one sample, none of these divisions is by
zero (the computations all return a value); with an empty loader the
functions raise `ZeroDivisionError` instead of returning a result. -/
theorem epoch_divisions_safe (train_loader val_loader test_loader : List BatchStats)
    (ht : ∃ b ∈ train_loader, 1 ≤ b.size)
    (hv : ∃ b ∈ val_loader, 1 ≤ b.size)
    (he : ∃ b ∈ test_loader, 1 ≤ b.size) :
    (epochStatistics train_loader val_loader).isSome = true
    ∧ (evaluateModelAccuracy test_loader).isSome = true
    ∧ phaseAverages [] = none
    ∧ epochStatistics [] val_loader = none
    ∧ epochStatistics train_loader [] = none
    ∧ evaluateModelAccuracy [] = none := by
  refine ⟨?_, ?_, rfl, rfl, ?_, rfl⟩
  · have h1 := phaseAverages_isSome ht
    have h2 := phaseAverages_isSome hv
    unfold epochStatistics
    cases hc1 : phaseAverages train_loader with
    | none => rw [hc1] at h1; exact absurd h1 (by simp)
    | some t =>
      cases hc2 : phaseAverages val_loader with
      | none => rw [hc2] at h2; exact absurd h2 (by simp)
      | some v => rfl
  · have hpos := size_sum_pos he
    have htot : ¬ ((test_loader.map fun b => b.size).sum = 0) := by omega
    simp [evaluateModelAccuracy, htot]
  · unfold epochStatistics
    cases hc1 : phaseAverages train_loader with
    | none => rfl
    | some t => rfl

theorem epoch_divisions_safe_witness :
    (epochStatistics [⟨1, 2, 1⟩] [⟨1, 2, 1⟩]).isSome = true :=
  (epoch_divisions_safe [⟨1, 2, 1⟩] [⟨1, 2, 1⟩] [⟨1, 2, 1⟩]
    ⟨⟨1, 2, 1⟩, by simp, by decide⟩
    ⟨⟨1, 2, 1⟩, by simp, by decide⟩
    ⟨⟨1, 2, 1⟩, by simp, by decide⟩).1

/-- **C6.** `__call__` converts a non-tensor input to a float32 tensor,
adds a leading dimension exactly when the (converted) waveform is
1-dimensional, and returns the dB-scaled mel spectrogram of the result; a
tensor input whose dimension is not 1 — in particular any tensor of
dimension ≥ 2 — reaches the mel transform unchanged. -/
theorem feature_extractor_call_spec (mel_transform amplitude_to_db : Tensor → Tensor)
    (t : Tensor) (d : ℕ) (dt : DType) (p : ℕ) :
    (t.dim ≠ 1 →
      EmotionFeatureExtractor.call mel_transform amplitude_to_db (.tensor t)
        = amplitude_to_db (mel_transform t))
    ∧ (t.dim = 1 →
      EmotionFeatureExtractor.call mel_transform amplitude_to_db (.tensor t)
        = amplitude_to_db (mel_transform (unsqueeze0 t))
      ∧ (unsqueeze0 t).dim = 2)
    ∧ EmotionFeatureExtractor.call mel_transform amplitude_to_db (.ndarray d dt p)
        = amplitude_to_db (mel_transform
            (if d = 1 then unsqueeze0 { dim := d, dtype := DType.float32, payload := p }
             else { dim := d, dtype := DType.float32, payload := p })) := by
  refine ⟨?_, ?_, ?_⟩
  · intro h1
    simp [EmotionFeatureExtractor.call, h1]
  · intro h1
    constructor
    · simp [EmotionFeatureExtractor.call, h1]
    · simp [unsqueeze0, h1]
  · by_cases hd : d = 1 <;> simp [EmotionFeatureExtractor.call, hd]

theorem feature_extractor_call_spec_witness :
    EmotionFeatureExtractor.call id id (.tensor ⟨2, DType.float64, 7⟩)
      = id (id (⟨2, DType.float64, 7⟩ : Tensor)) :=
  (feature_extractor_call_spec id id ⟨2, DType.float64, 7⟩ 0 DType.float32 0).1
    (by decide)

/-- **C7.** The `Verify project structure` step exits 0 whatever exists:
a missing `src` directory or `requirements.txt` only swaps the success echo
for a warning echo and never produces a failing exit status, so the job's
outcome does not depend on them — the workflow fails exactly when the
syntax-check step does. -/
theorem verify_structure_always_succeeds (syntaxExit : ℕ) (srcExists reqExists : Bool) :
    (runScript (verify_project_structure srcExists reqExists)).1 = 0
    ∧ (runScript (verify_project_structure srcExists reqExists)).2 =
        [ "Verifying project structure...",
          if srcExists then "✓ src directory found" else "⚠️ src directory not found",
          if reqExists then "✓ requirements.txt found" else "⚠️ requirements.txt not found" ]
    ∧ (basicCodeValidationJob syntaxExit srcExists reqExists = true ↔ syntaxExit = 0) := by
  cases srcExists <;> cases reqExists <;>
    refine ⟨rfl, rfl, ?_⟩ <;> simp [basicCodeValidationJob, runScript, runCmd,
      verify_project_structure]

end SER
